import Mathlib

/-!
Verification development for the NYT-best-sellers → audiobookshelf collection
sync script (`nyt-best-sellers.py`).  The Python source is shallowly embedded:
pure helpers become Lean functions on `String`/`List Char`, the sqlite catalog
becomes an explicit record of row lists, and the transactional `main` phase
becomes explicit state passing with `Except` for raised errors.
-/

namespace NytAbs

/-! ### Python string primitives -/

/-- Python `str.lower()` on the character list of a string. -/
def pyLower (s : String) : String := ⟨s.data.map Char.toLower⟩

/-- Python `str.strip()` on a character list: drop leading and trailing
whitespace. -/
def pyStripList (l : List Char) : List Char :=
  ((l.dropWhile Char.isWhitespace).reverse.dropWhile Char.isWhitespace).reverse

/-- Python `str.strip()`. -/
def pyStrip (s : String) : String := ⟨pyStripList s.data⟩

/-- Helper for `pyWords`: split a character list on whitespace runs,
dropping empty segments (Python `str.split()` with no argument). -/
def pyWordsAux : List Char → List Char → List String
  | [], [] => []
  | [], cur => [⟨cur.reverse⟩]
  | c :: cs, cur =>
    if c.isWhitespace then
      if cur.isEmpty then pyWordsAux cs [] else ⟨cur.reverse⟩ :: pyWordsAux cs []
    else pyWordsAux cs (c :: cur)

/-- Python `s.split()` (split on whitespace, no empty parts). -/
def pyWords (s : String) : List String := pyWordsAux s.data []

/-- Python `sep.join(parts)`. -/
def joinSep (sep : String) : List String → String
  | [] => ""
  | [x] => x
  | x :: xs => x ++ sep ++ joinSep sep xs

/-- A regex word character (`\w`) restricted to ASCII: letter, digit or
underscore. -/
def isWordChar (c : Char) : Bool := c.isAlphanum || c = '_'

/-! ### Identifier normalizers (source lines 42-78) -/

/-- Source `normalize_isbn`: `re.sub(r"[^0-9Xx]", "", s).lower()` — keep only
digits and the letters X/x, then lowercase. -/
def normalize_isbn (s : String) : String :=
  ⟨(s.data.filter (fun c => c.isDigit || c = 'X' || c = 'x')).map Char.toLower⟩

/-- Source `normalize_title`: collapse whitespace runs, trim, lowercase. -/
def normalize_title (s : String) : String :=
  pyLower (joinSep " " (pyWords s))

/-- Python `s.replace(' ', '%')` for the author pattern. -/
def replaceSpacePercent (s : String) : String :=
  ⟨s.data.map (fun c => if c = ' ' then '%' else c)⟩

/-- Source `make_author_like_pattern`: collapse whitespace, lowercase, replace
spaces by `%` and wrap the result in `%` on both ends. -/
def make_author_like_pattern (name : String) : String :=
  let n := pyLower (joinSep " " (pyWords name))
  "%" ++ replaceSpacePercent n ++ "%"

/-! ### parse_authors (source lines 60-78)

The two regexes are embedded as character-level scanners with the exact
Python `re` semantics for these patterns (leftmost match, greedy `\s*`,
ASCII word boundaries). -/

/-- Matcher for the `_LEADING_BY` regex tail: after a case-insensitive
leading "by", require a word boundary, then greedily consume `[:\s]*`.
Returns `none` when the boundary fails (pattern does not match). -/
def afterBy (rest : List Char) : Option (List Char) :=
  match rest with
  | [] => some []
  | c :: _ =>
    if isWordChar c then none
    else some (rest.dropWhile (fun c => c = ':' || c.isWhitespace))

/-- Source regex `^\s*by\b[:\s]*` substituted by the empty string (the input
is already stripped, so the leading `\s*` is vacuous). -/
def stripLeadingBy (s : String) : String :=
  match s.data with
  | b :: y :: rest =>
    if b.toLower = 'b' && y.toLower = 'y' then
      match afterBy rest with
      | some rest' => ⟨rest'⟩
      | none => s
    else s
  | _ => s

/-- Case-insensitive literal match of a lowercase pattern word against the
head of a character list, returning the remainder on success. -/
def matchCI : List Char → List Char → Option (List Char)
  | [], cs => some cs
  | p :: ps, c :: cs => if c.toLower = p then matchCI ps cs else none
  | _ :: _, [] => none

/-- Word-boundary check to the right of a matched separator word: end of
string or a non-word character. -/
def boundaryAfter (rest : List Char) : Bool :=
  match rest with
  | [] => true
  | c :: _ => !isWordChar c

/-- Match one of the separator words (`and` / `with`, given lowercase) with a
word boundary after it, then greedily consume trailing `\s*`.  Returns the
boundary state after the match and the remaining characters. -/
def matchWordSep (w : List Char) (rest : List Char) : Option (Bool × List Char) :=
  match matchCI w rest with
  | some rest' =>
    if boundaryAfter rest' then
      some (!(rest'.takeWhile Char.isWhitespace).isEmpty,
            rest'.dropWhile Char.isWhitespace)
    else none
  | none => none

/-- Attempt to match the separator regex `\s*(?:,|\band\b|\bwith\b)\s*`
starting exactly at `cs`.  `bdry` says whether a word boundary exists before
the current position (start of string or previous character non-word); since
the leading `\s*` is greedy and no alternative starts with whitespace, the
maximal whitespace run is the only candidate.  On success returns the
boundary state after the match together with the remaining characters. -/
def matchSepAt (bdry : Bool) (cs : List Char) : Option (Bool × List Char) :=
  let rest := cs.dropWhile Char.isWhitespace
  let bdry' := if (cs.takeWhile Char.isWhitespace).isEmpty then bdry else true
  match rest with
  | ',' :: rest' => some (true, rest'.dropWhile Char.isWhitespace)
  | _ =>
    if bdry' then
      match matchWordSep ['a', 'n', 'd'] rest with
      | some r => some r
      | none => matchWordSep ['w', 'i', 't', 'h'] rest
    else none

/-- Left-to-right scan implementing `re.split` for the separator regex.
`fuel` bounds the recursion (any value at least the input length is exact:
every separator match and every skipped character consumes at least one
input character). -/
def splitSepsAux : Nat → Bool → List Char → List Char → List String
  | 0, _, acc, cs => [⟨acc.reverse ++ cs⟩]
  | fuel + 1, bdry, acc, cs =>
    match cs with
    | [] => [⟨acc.reverse⟩]
    | c :: cs' =>
      match matchSepAt bdry cs with
      | some (b', rest) => (⟨acc.reverse⟩ : String) :: splitSepsAux fuel b' [] rest
      | none => splitSepsAux fuel (!isWordChar c) (c :: acc) cs'

/-- Source `_SEPARATORS.split(s)`. -/
def splitSeparators (s : String) : List String :=
  splitSepsAux (s.data.length + 1) true [] s.data

/-- Order-preserving case-insensitive dedup (the `seen`/`out` loop in
`parse_authors`); `seen` holds lowercased keys already emitted. -/
def dedupCI : List String → List String → List String
  | [], _ => []
  | p :: ps, seen =>
    if pyLower p ∈ seen then dedupCI ps seen
    else p :: dedupCI ps (pyLower p :: seen)

/-- Source `parse_authors`. -/
def parse_authors (s : String) : List String :=
  if s.isEmpty then []
  else
    let s1 := stripLeadingBy (pyStrip s)
    let parts := ((splitSeparators s1).map pyStrip).filter (fun p => !p.isEmpty)
    dedupCI parts []

/-! ### The Book dataclass (source lines 19-40) -/

/-- Source dataclass `Book`.  `rank` and `abs_book_id` are `Optional`. -/
structure Book where
  title : String
  authors : List String
  isbn : String
  nyt_list : String
  rank : Option Int
  abs_book_id : Option String
deriving DecidableEq

/-- The `Book` constructor including `__post_init__`, which replaces the
authors list by its element-wise `str.strip()`. -/
def mkBook (title : String) (authors : List String) (isbn : String)
    (nyt_list : String) (rank : Option Int) (abs_book_id : Option String) : Book :=
  { title := title, authors := authors.map pyStrip, isbn := isbn,
    nyt_list := nyt_list, rank := rank, abs_book_id := abs_book_id }

/-! ### Cross-list merger (source lines 132-174) -/

/-- The merge key computed inside `build_abs_collections`: the raw ISBN when
non-empty, else the lowercased string `title|author1,author2,...`. -/
def mergeKey (bk : Book) : String :=
  if bk.isbn.isEmpty then pyLower (bk.title ++ "|" ++ joinSep "," bk.authors)
  else bk.isbn

/-- The rank comparison deciding whether the incoming record replaces the
stored one: incoming rank present and (stored absent or strictly larger). -/
def replacesCond (incoming stored : Option Int) : Bool :=
  match incoming, stored with
  | some _, none => true
  | some r, some r0 => r < r0
  | none, _ => false

/-- First value stored under a key in the insertion-ordered association list
modelling the Python dict `merged`. -/
def lookupKey (k : String) (l : List (String × Book)) : Option Book :=
  (l.find? (fun p => p.1 == k)).map (·.2)

/-- One step of the merge fold: insert a fresh key at the end, or replace the
stored record in place when the incoming rank is strictly better. -/
def mergeStep (merged : List (String × Book)) (bk : Book) : List (String × Book) :=
  let key := mergeKey bk
  match merged.find? (fun p => p.1 == key) with
  | none => merged ++ [(key, bk)]
  | some p =>
    if replacesCond bk.rank p.2.rank then
      merged.map (fun q => if q.1 == key then (q.1, bk) else q)
    else merged

/-! ### The final sort (source lines 167-171)

Python sorts by the tuple `(rank is None, rank or 1_000_000, title.lower())`;
tuple and string comparison are lexicographic by code point, embedded below. -/

/-- Code-point lexicographic `<=` on character lists (Python string order). -/
def charListLe : List Char → List Char → Bool
  | [], _ => true
  | _ :: _, [] => false
  | a :: as, b :: bs => if a.toNat = b.toNat then charListLe as bs else a.toNat < b.toNat

/-- Python string `<=` by code points. -/
def strLe (s t : String) : Bool := charListLe s.data t.data

/-- The sentinel used for an absent rank. -/
def rankSentinel : Option Int → Int
  | some v => v
  | none => 1000000

/-- Encode `rank is None` as 0/1 for lexicographic comparison. -/
def boolNat (b : Bool) : Nat := if b then 1 else 0

/-- The sort key of `build_abs_collections`. -/
def sortKey (b : Book) : Nat × Int × String :=
  (boolNat b.rank.isNone, rankSentinel b.rank, pyLower b.title)

/-- Lexicographic `<=` on sort keys. -/
def lexLe (p q : Nat × Int × String) : Bool :=
  if p.1 = q.1 then
    if p.2.1 = q.2.1 then strLe p.2.2 q.2.2
    else decide (p.2.1 < q.2.1)
  else decide (p.1 < q.1)

/-- Comparator for the final sort. -/
def keyLe (x y : Book) : Bool := lexLe (sortKey x) (sortKey y)

/-- Python `sorted(merged.values(), key=...)`: a stable sort by the key. -/
def sortBooks (l : List Book) : List Book := l.mergeSort keyLe

/-- `build_abs_collections` for one target group, given the already extracted
per-source-list books in configured order (missing slugs contribute nothing
and are dropped before this point). -/
def build_group (bookLists : List (List Book)) : List Book :=
  sortBooks ((bookLists.flatten.foldl mergeStep []).map Prod.snd)

/-! ### The catalog database model

Rows of the sqlite tables touched by the script, as explicit lists; queries
without ORDER BY with LIMIT 1 are modelled as the first row in list order. -/

structure BookRow where
  id : String
  isbn : Option String
  title : String
deriving DecidableEq

structure AuthorRow where
  id : String
  name : String
deriving DecidableEq

structure BookAuthorRow where
  bookId : String
  authorId : String
deriving DecidableEq

structure LibraryItemRow where
  mediaId : String
  libraryId : String
deriving DecidableEq

structure CollectionRow where
  id : String
  name : String
  description : Option String
  createdAt : String
  updatedAt : String
  libraryId : String
deriving DecidableEq

structure CollectionBookRow where
  id : String
  ord : Nat
  createdAt : String
  bookId : String
  collectionId : String
deriving DecidableEq

structure AbsDb where
  books : List BookRow
  authors : List AuthorRow
  bookAuthors : List BookAuthorRow
  libraryItems : List LibraryItemRow
  collections : List CollectionRow
  collectionBooks : List CollectionBookRow
deriving DecidableEq

/-- SQL `LIKE` matching worker: `%` matches any sequence, `_` any single
character, anything else itself.  Structural recursion on a fuel bound (every
step consumes at least one pattern or subject character, so any fuel of at
least `ps.length + s.length + 1` computes the true value). -/
def sqlLikeFuel : Nat → List Char → List Char → Bool
  | 0, _, _ => false
  | fuel + 1, ps, s =>
    match ps, s with
    | [], [] => true
    | [], _ :: _ => false
    | '%' :: ps', s =>
      sqlLikeFuel fuel ps' s ||
        (match s with
         | [] => false
         | _ :: s' => sqlLikeFuel fuel ('%' :: ps') s')
    | _ :: _, [] => false
    | '_' :: ps', _ :: s' => sqlLikeFuel fuel ps' s'
    | p :: ps', c :: s' => p == c && sqlLikeFuel fuel ps' s'

/-- SQL `LIKE` matching of a pattern against a subject. -/
def sqlLike (ps s : List Char) : Bool :=
  sqlLikeFuel (ps.length + s.length + 1) ps s

/-- SQL `REPLACE(x, '-', '')`. -/
def stripHyphens (s : String) : String := ⟨s.data.filter (fun c => c ≠ '-')⟩

/-! ### Catalog resolver (source lines 210-289) -/

/-- Source `find_book_id_by_isbn`: normalized-ISBN equality against the
stored ISBN with hyphens removed and lowercased, scoped to the library. -/
def find_book_id_by_isbn (db : AbsDb) (isbn : String) (library_id : String) :
    Option String :=
  if isbn.isEmpty then none
  else
    let n := normalize_isbn isbn
    if n.isEmpty then none
    else
      (db.books.find? (fun b =>
        stripHyphens (pyLower (b.isbn.getD "")) == n &&
        db.libraryItems.any (fun li => li.mediaId == b.id && li.libraryId == library_id))).map
        (·.id)

/-- The single-author query body of `find_book_id_by_author_title`: exact
lowercased-title match, some contributor whose lowercased name matches the
author LIKE pattern, scoped to the library. -/
def authorTitleHit (db : AbsDb) (tnorm : String) (pat : String)
    (library_id : String) : Option String :=
  (db.books.find? (fun b =>
    pyLower b.title == tnorm &&
    db.bookAuthors.any (fun ba =>
      ba.bookId == b.id &&
      db.authors.any (fun au => au.id == ba.authorId &&
        sqlLike pat.data (pyLower au.name).data)) &&
    db.libraryItems.any (fun li => li.mediaId == b.id && li.libraryId == library_id))).map
    (·.id)

/-- The author loop of `find_book_id_by_author_title`. -/
def authorLoop (db : AbsDb) (tnorm : String) (library_id : String) :
    List String → Option String
  | [] => none
  | a :: rest =>
    match authorTitleHit db tnorm (make_author_like_pattern a) library_id with
    | some i => some i
    | none => authorLoop db tnorm library_id rest

/-- Source `find_book_id_by_author_title`. -/
def find_book_id_by_author_title (db : AbsDb) (title : String)
    (authors : List String) (library_id : String) : Option String :=
  let tnorm := normalize_title title
  if tnorm.isEmpty then none
  else authorLoop db tnorm library_id authors

/-- Python truthiness of an optional string (`if bid:`): present and
non-empty. -/
def truthy : Option String → Bool
  | none => false
  | some s => !s.isEmpty

/-- Source `resolve_abs_id_for_book`: ISBN strategy, then title+author
strategy, else `None`. -/
def resolve_abs_id_for_book (db : AbsDb) (book : Book) (library_id : String) :
    Option String :=
  let bid := find_book_id_by_isbn db book.isbn library_id
  if truthy bid then bid
  else
    let bid2 := find_book_id_by_author_title db book.title book.authors library_id
    if truthy bid2 then bid2 else none

/-! ### Collection sync engine (source lines 323-414)

`new_uuid()` and `utc_now_sql()` are nondeterministic inputs of the real
program; they are passed in explicitly (a generator function for the per-row
uuids). -/

/-- Source `get_or_create_collection`: look up by exact name (no scope
filter); if found touch `updatedAt` and return the id, else insert a fresh
row carrying the given `library_id`.  Returns the updated database and the
collection id. -/
def get_or_create_collection (db : AbsDb) (collection_name : String)
    (library_id : String) (uuid : String) (now : String) : AbsDb × String :=
  match db.collections.find? (fun r => r.name == collection_name) with
  | some row =>
    ({ db with
        collections := db.collections.map (fun r =>
          if r.id == row.id then { r with updatedAt := now } else r) },
      row.id)
  | none =>
    ({ db with
        collections := db.collections ++
          [{ id := uuid, name := collection_name, description := none,
             createdAt := now, updatedAt := now, libraryId := library_id }] },
      uuid)

/-- The
dedup loop of `replace_collection_books`: collect `abs_book_id`s in input
order, skipping falsy ids (absent or empty) and ids already seen. -/
def uniqueIds : List Book → List String → List String
  | [], _ => []
  | b :: bs, seen =>
    match b.abs_book_id with
    | none => uniqueIds bs seen
    | some id =>
      if id.isEmpty then uniqueIds bs seen
      else if id ∈ seen then uniqueIds bs seen
      else id :: uniqueIds bs (id :: seen)

/-- Source `replace_collection_books`: delete this collection's rows, then
insert the deduplicated ids with contiguous `order` starting at 1 (nothing is
inserted when the deduplicated list is empty). -/
def replace_collection_books (db : AbsDb) (collection_id : String)
    (books : List Book) (uuids : Nat → String) (now : String) : AbsDb :=
  let db1 := { db with
    collectionBooks := db.collectionBooks.filter
      (fun r => !(r.collectionId == collection_id)) }
  let unique := uniqueIds books []
  if unique.isEmpty then db1
  else
    { db1 with
      collectionBooks := db1.collectionBooks ++
        unique.enum.map (fun p =>
          { id := uuids p.1, ord := p.1 + 1, createdAt := now,
            bookId := p.2, collectionId := collection_id }) }

/-- A group's membership rows, viewed as (position, catalog identifier)
pairs in table order. -/
def membership (db : AbsDb) (collection_id : String) : List (Nat × String) :=
  (db.collectionBooks.filter (fun r => r.collectionId == collection_id)).map
    (fun r => (r.ord, r.bookId))

/-- Source `upsert_abs_collection_with_books` with `library_id` supplied (as
`main` does), so `get_library_id` is skipped. -/
def upsert_abs_collection_with_books (db : AbsDb) (name : String)
    (books : List Book) (library_id : String) (gUuid : String)
    (rowUuids : Nat → String) (now : String) : AbsDb :=
  let p := get_or_create_collection db name library_id gUuid now
  replace_collection_books p.1 p.2 books rowUuids now

/-! ### Run orchestrator (source lines 416-449)

The enrich/filter pass runs catalog queries, any of which may raise an
operational error in the real program; the resolver is therefore passed as a
fallible function.  `BEGIN`/`COMMIT`/`ROLLBACK` are modelled by explicit
state passing: a committed phase yields its final state, a failed phase
rolls back to the state at `BEGIN`. -/

/-- The enrich-and-filter loop of `main` for one group: resolve each book,
drop unresolved (falsy) ids and ids already seen, keep the rest annotated. -/
def enrich_filter (resolveF : Book → Except String (Option String)) :
    List Book → List String → Except String (List Book)
  | [], _ => .ok []
  | b :: bs, seen =>
    match resolveF b with
    | .error e => .error e
    | .ok abs_id =>
      match abs_id with
      | none => enrich_filter resolveF bs seen
      | some id =>
        if id.isEmpty then enrich_filter resolveF bs seen
        else if id ∈ seen then enrich_filter resolveF bs seen
        else (enrich_filter resolveF bs (id :: seen)).map
          (fun rest => { b with abs_book_id := some id } :: rest)

/-- The transactional phase of `main`: enrich and filter every group, then
upsert every group.  `uuidSup i j` supplies the uuids for group `i` (`j = 0`
the collection uuid, `j+1` the row uuids). -/
def txn_phase (resolveF : Book → Except String (Option String))
    (groups : List (String × List Book)) (lib_id : String)
    (uuidSup : Nat → Nat → String) (now : String) (db : AbsDb) :
    Except String AbsDb := do
  let enriched ← groups.mapM (fun p =>
    (enrich_filter resolveF p.2 []).map (fun ks => (p.1, ks)))
  .ok (enriched.enum.foldl (fun acc q =>
    upsert_abs_collection_with_books acc q.2.1 q.2.2 lib_id
      (uuidSup q.1 0) (fun j => uuidSup q.1 (j + 1)) now) db)

/-- `BEGIN IMMEDIATE; try: phase; COMMIT except: ROLLBACK`: on success the
phase's writes are committed, on any error the catalog state reverts to the
state at `BEGIN` and the error is re-raised. -/
def run_transaction (db : AbsDb) (phase : AbsDb → Except String AbsDb) :
    AbsDb × Option String :=
  match phase db with
  | .ok db' => (db', none)
  | .error e => (db, some e)

/-- The transactional portion of `main`: state after the run together with
the propagated error, if any. -/
def main_model (resolveF : Book → Except String (Option String))
    (groups : List (String × List Book)) (lib_id : String)
    (uuidSup : Nat → Nat → String) (now : String) (db : AbsDb) :
    AbsDb × Option String :=
  run_transaction db (txn_phase resolveF groups lib_id uuidSup now)

/-! ### Specification-side descriptions used in claim statements -/

/-- First-occurrence-wins deduplication preserving input order (the spec's
description of the membership dedup), with an accumulator of ids already
kept. -/
def dedupFirstAux : List String → List String → List String
  | [], _ => []
  | x :: xs, seen =>
    if x ∈ seen then dedupFirstAux xs seen
    else x :: dedupFirstAux xs (x :: seen)

/-! ### Concrete catalog instances used by the closed theorems -/

/-- The empty catalog. -/
def emptyDb : AbsDb :=
  { books := [], authors := [], bookAuthors := [], libraryItems := [],
    collections := [], collectionBooks := [] }

/-- Stored and incoming records sharing merge key "1-2", ranks 5 and 2. -/
def c4old : Book := mkBook "Old" [] "1-2" "s" (some 5) none

/-- Incoming record for the C4 witness. -/
def c4new : Book := mkBook "New" [] "1-2" "s" (some 2) none

/-- Input records for the C3 witness: a duplicate resolved id, an unresolved
record, and two distinct resolved ids. -/
def c3books : List Book :=
  [ mkBook "A" [] "" "" (some 1) (some "x2"),
    mkBook "B" [] "" "" (some 2) none,
    mkBook "C" [] "" "" (some 3) (some "x1"),
    mkBook "D" [] "" "" (some 4) (some "x2") ]

/-- A catalog with pre-existing membership rows for groups "G" and "H". -/
def c3db : AbsDb :=
  { books := [], authors := [], bookAuthors := [], libraryItems := [],
    collections := [],
    collectionBooks :=
      [ { id := "old1", ord := 1, createdAt := "t", bookId := "zzz",
          collectionId := "G" },
        { id := "old2", ord := 7, createdAt := "t", bookId := "yyy",
          collectionId := "H" } ] }

/-- A catalog where the C5 witness record misses on ISBN but hits on
title+author. -/
def c5db : AbsDb :=
  { books := [ { id := "b1", isbn := some "111", title := "foo" },
               { id := "b2", isbn := none, title := "bar" } ],
    authors := [ { id := "a1", name := "John Smith" } ],
    bookAuthors := [ { bookId := "b2", authorId := "a1" } ],
    libraryItems := [ { mediaId := "b1", libraryId := "L" },
                      { mediaId := "b2", libraryId := "L" } ],
    collections := [], collectionBooks := [] }

/-- The C5 witness record: ISBN "999" (no catalog match), author resolves. -/
def c5book : Book := mkBook "Bar" ["John Smith"] "999" "s" none none

/-- A catalog holding one collection named "X" that belongs to library scope
"L2". -/
def c6db : AbsDb :=
  { books := [], authors := [], bookAuthors := [], libraryItems := [],
    collections := [{ id := "c1", name := "X", description := none,
                      createdAt := "t0", updatedAt := "t0", libraryId := "L2" }],
    collectionBooks := [] }

/-- A catalog with one book, one unrelated contributor name and one library
item in scope "L1". -/
def c10db : AbsDb :=
  { books := [{ id := "b1", isbn := none, title := "Some Title" }],
    authors := [{ id := "a1", name := "Zzz Qqq" }],
    bookAuthors := [{ bookId := "b1", authorId := "a1" }],
    libraryItems := [{ mediaId := "b1", libraryId := "L1" }],
    collections := [], collectionBooks := [] }

/-! ### Helper lemmas -/

theorem head?_dropWhile {α} (p : α → Bool) (l : List α) :
    ∀ a, (l.dropWhile p).head? = some a → p a = false := by
  induction l with
  | nil => simp
  | cons x xs ih =>
    intro a ha
    cases h : p x with
    | true => exact ih a (by simpa [List.dropWhile_cons, h] using ha)
    | false =>
      simp [List.dropWhile_cons, h] at ha
      exact ha ▸ h

theorem dropWhile_eq_self_of_head? {α} (p : α → Bool) (l : List α)
    (h : ∀ a, l.head? = some a → p a = false) : l.dropWhile p = l := by
  cases l with
  | nil => rfl
  | cons x xs => simp [List.dropWhile_cons, h x rfl]

theorem head?_pyStripList (l : List Char) :
    ∀ c, (pyStripList l).head? = some c → c.isWhitespace = false := by
  intro c hc
  unfold pyStripList at hc
  rw [List.head?_reverse] at hc
  obtain ⟨t, ht⟩ := List.dropWhile_suffix (l := (l.dropWhile Char.isWhitespace).reverse)
    (p := Char.isWhitespace)
  have h2 : ((l.dropWhile Char.isWhitespace).reverse).getLast? = some c := by
    rw [← ht, List.getLast?_append, hc]
    rfl
  rw [List.getLast?_reverse] at h2
  exact head?_dropWhile Char.isWhitespace l c h2

theorem getLast?_pyStripList (l : List Char) :
    ∀ c, (pyStripList l).getLast? = some c → c.isWhitespace = false := by
  intro c hc
  unfold pyStripList at hc
  rw [List.getLast?_reverse] at hc
  exact head?_dropWhile Char.isWhitespace _ c hc

theorem pyStripList_idem (l : List Char) :
    pyStripList (pyStripList l) = pyStripList l := by
  have h1 : (pyStripList l).dropWhile Char.isWhitespace = pyStripList l :=
    dropWhile_eq_self_of_head? _ _ (head?_pyStripList l)
  have h2 : ((pyStripList l).reverse).dropWhile Char.isWhitespace
      = (pyStripList l).reverse := by
    refine dropWhile_eq_self_of_head? _ _ ?_
    intro c hc
    rw [List.head?_reverse] at hc
    exact getLast?_pyStripList l c hc
  calc pyStripList (pyStripList l)
      = (((pyStripList l).dropWhile Char.isWhitespace).reverse.dropWhile
          Char.isWhitespace).reverse := rfl
    _ = pyStripList l := by rw [h1, h2, List.reverse_reverse]

theorem pyStrip_idem (s : String) : pyStrip (pyStrip s) = pyStrip s :=
  congrArg String.mk (pyStripList_idem s.data)

theorem mem_dedupCI (x : String) :
    ∀ (l seen : List String), x ∈ dedupCI l seen → x ∈ l := by
  intro l
  induction l with
  | nil => intro seen h; simp [dedupCI] at h
  | cons p ps ih =>
    intro seen h
    by_cases hp : pyLower p ∈ seen
    · exact List.mem_cons_of_mem _ (ih _ (by simpa [dedupCI, hp] using h))
    · rcases (by simpa [dedupCI, hp] using h : x = p ∨ x ∈ dedupCI ps (pyLower p :: seen)) with
        h1 | h1
      · simp [h1]
      · exact List.mem_cons_of_mem _ (ih _ h1)

theorem dedupCI_nodup :
    ∀ (l seen : List String),
      ((dedupCI l seen).map pyLower).Nodup ∧
        ∀ x ∈ dedupCI l seen, pyLower x ∉ seen := by
  intro l
  induction l with
  | nil => intro seen; simp [dedupCI]
  | cons p ps ih =>
    intro seen
    by_cases hp : pyLower p ∈ seen
    · simpa [dedupCI, hp] using ih seen
    · have ihp := ih (pyLower p :: seen)
      have hstep : dedupCI (p :: ps) seen = p :: dedupCI ps (pyLower p :: seen) := by
        simp [dedupCI, hp]
      constructor
      · rw [hstep, List.map_cons, List.nodup_cons]
        refine ⟨?_, ihp.1⟩
        intro hmem
        rcases List.mem_map.1 hmem with ⟨y, hy, hyl⟩
        exact (ihp.2 y hy) (by simp [hyl])
      · intro x hx
        rcases (by simpa [dedupCI, hp] using hx :
            x = p ∨ x ∈ dedupCI ps (pyLower p :: seen)) with h1 | h1
        · simpa [h1] using hp
        · have := ihp.2 x h1
          intro hxs
          exact this (List.mem_cons_of_mem _ hxs)

theorem pyWordsAux_nil :
    ∀ cs : List Char, (∀ c ∈ cs, c.isWhitespace) → pyWordsAux cs [] = [] := by
  intro cs
  induction cs with
  | nil => intro _; rfl
  | cons c cs ih =>
    intro h
    have hc : c.isWhitespace := h c (by simp)
    simp only [pyWordsAux, hc, if_pos, List.isEmpty_nil, if_true]
    exact ih (fun d hd => h d (List.mem_cons_of_mem _ hd))

theorem sqlLikeFuel_one_percent :
    ∀ (fuel : Nat) (cs : List Char), cs.length + 2 ≤ fuel →
      sqlLikeFuel fuel ['%'] cs = true := by
  intro fuel
  induction fuel with
  | zero => intro cs h; omega
  | succ fuel ih =>
    intro cs h
    cases cs with
    | nil =>
      obtain ⟨f, rfl⟩ : ∃ f, fuel = f + 1 := ⟨fuel - 1, by omega⟩
      rfl
    | cons c cs' =>
      have h2 : sqlLikeFuel fuel ['%'] cs' = true := by
        refine ih cs' ?_
        simp at h
        omega
      simp [sqlLikeFuel, h2]

theorem sqlLike_two_percent : ∀ cs : List Char, sqlLike ['%', '%'] cs = true := by
  intro cs
  show sqlLikeFuel (2 + cs.length + 1) ['%', '%'] cs = true
  obtain ⟨f, hf, hfe⟩ : ∃ f, 2 + cs.length + 1 = f + 1 ∧ f = cs.length + 2 :=
    ⟨cs.length + 2, by omega, rfl⟩
  rw [hf]
  have h1 : sqlLikeFuel f ['%'] cs = true := sqlLikeFuel_one_percent f cs (by omega)
  simp [sqlLikeFuel, h1]

/-! ### Claim theorems -/

/-- C1 counterexample: the merge key of `build_abs_collections` is not the
normalized ISBN — a record with raw ISBN "1-2" (normalized "12", non-empty)
is keyed by the raw string "1-2"; and for an ISBN-less record the composite
key keeps the raw (non-whitespace-collapsed) title. -/
theorem c1_counterexample :
    normalize_isbn (mkBook "T" [] "1-2" "s" (some 1) none).isbn = "12"
    ∧ ("12" : String) ≠ ""
    ∧ mergeKey (mkBook "T" [] "1-2" "s" (some 1) none) = "1-2"
    ∧ ("1-2" : String) ≠ "12"
    ∧ mergeKey (mkBook "A  B" [] "" "s" none none) = "a  b|"
    ∧ normalize_title "A  B" ++ "|" ++ joinSep "," ([] : List String) = "a b|"
    ∧ ("a  b|" : String) ≠ "a b|" := by
  refine ⟨rfl, by decide, rfl, by decide, rfl, rfl, by decide⟩

/-- C1 amended: the merge key is the raw ISBN string whenever the raw ISBN is
non-empty (no normalization, and the emptiness test is on the raw string),
and otherwise the lowercase of the raw title, "|", and the raw authors joined
by commas (no whitespace collapsing or per-author normalization). -/
theorem c1_amended (bk : Book) :
    mergeKey bk =
      if bk.isbn = "" then pyLower (bk.title ++ "|" ++ joinSep "," bk.authors)
      else bk.isbn := by
  by_cases h : bk.isbn = "" <;>
    simp [mergeKey, String.isEmpty_iff, h]

/-- C6 counterexample: `get_or_create_collection` looks an existing group up
by name alone — asked for name "X" in scope "L1" it returns the existing
group "c1" even though that group belongs to scope "L2". -/
theorem c6_counterexample :
    (get_or_create_collection c6db "X" "L1" "u1" "t1").2 = "c1"
    ∧ (c6db.collections.filter (fun r => r.id == "c1")).map (·.libraryId) = ["L2"]
    ∧ (((get_or_create_collection c6db "X" "L1" "u1" "t1").1.collections.filter
        (fun r => r.id == "c1")).map (·.libraryId)) = ["L2"]
    ∧ ("L2" : String) ≠ "L1" := by
  refine ⟨rfl, rfl, rfl, by decide⟩

/-- C6 amended: the returned identifier is either that of an existing group
of the same name — reused and its modification timestamp touched regardless
of which scope it belongs to — or, when no group of that name exists, that of
a freshly created group carrying the given scope; only in the creation case
is the group guaranteed to lie in the given scope. -/
theorem c6_amended (db : AbsDb) (name lib uuid now : String) :
    (∃ row ∈ db.collections, row.name = name
      ∧ (get_or_create_collection db name lib uuid now).2 = row.id
      ∧ { row with updatedAt := now }
          ∈ (get_or_create_collection db name lib uuid now).1.collections)
    ∨ ((get_or_create_collection db name lib uuid now).2 = uuid
      ∧ ({ id := uuid, name := name, description := none, createdAt := now,
           updatedAt := now, libraryId := lib } : CollectionRow)
          ∈ (get_or_create_collection db name lib uuid now).1.collections
      ∧ ∀ row ∈ db.collections, row.name ≠ name) := by
  cases h : db.collections.find? (fun r => r.name == name) with
  | some row =>
    left
    refine ⟨row, List.mem_of_find?_eq_some h, ?_, ?_, ?_⟩
    · have hb : (row.name == name) = true :=
        List.find?_some (p := fun (r : CollectionRow) => r.name == name) h
      exact beq_iff_eq.1 hb
    · simp [get_or_create_collection, h]
    · simp only [get_or_create_collection, h]
      have : (fun r => if r.id == row.id then { r with updatedAt := now } else r) row
          = { row with updatedAt := now } := by simp
      exact this ▸ List.mem_map_of_mem _ (List.mem_of_find?_eq_some h)
  | none =>
    right
    refine ⟨by simp [get_or_create_collection, h], ?_, ?_⟩
    · simp [get_or_create_collection, h]
    · intro row hrow hname
      exact (List.find?_eq_none.1 h row hrow) (by simp [hname])

/-- C7 counterexample: the `Book` constructor strips author names but does
not drop empties — a whitespace-only author survives as the empty string. -/
theorem c7_counterexample : "" ∈ (mkBook "t" [" "] "" "" none none).authors := by
  decide

/-- C7 amended: for every possible authors argument, every author stored in a
constructed `Book` carries no leading or trailing whitespace (it is a fixed
point of stripping); empty strings, however, can occur, as whitespace-only
input names are stripped to "" and kept. -/
theorem c7_amended (title : String) (authors : List String) (isbn nyt_list : String)
    (rank : Option Int) (aid : Option String) (a : String)
    (ha : a ∈ (mkBook title authors isbn nyt_list rank aid).authors) :
    pyStrip a = a := by
  rcases List.mem_map.1 ha with ⟨b, _, hb⟩
  rw [← hb]
  exact pyStrip_idem b

/-- Witness for the C7 amended theorem at a concrete input. -/
theorem c7_witness :
    "a" ∈ (mkBook "t" [" a "] "" "" none none).authors ∧ pyStrip "a" = "a" :=
  ⟨by decide, c7_amended "t" [" a "] "" "" none none "a" (by decide)⟩

/-- C9: `parse_authors` strips one leading case-insensitive "by" prefix with
optional colon/whitespace, splits on commas and the whole words "and"/"with",
trims each part, drops empties and deduplicates case-insensitively keeping
first-seen order and casing; in particular the two spec examples hold, the
result never contains an untrimmed or empty entry, and lowercased entries are
pairwise distinct. -/
theorem c9_parse_authors :
    parse_authors "by James Patterson and Duane Swierczynski"
      = ["James Patterson", "Duane Swierczynski"]
    ∧ parse_authors "Trey Gowdy with Christopher Greyson"
      = ["Trey Gowdy", "Christopher Greyson"]
    ∧ (∀ s : String, parse_authors s =
        if s.isEmpty then []
        else dedupCI (((splitSeparators (stripLeadingBy (pyStrip s))).map
          pyStrip).filter (fun p => !p.isEmpty)) [])
    ∧ (∀ s : String, ((parse_authors s).map pyLower).Nodup)
    ∧ (∀ s : String, (parse_authors s).all
        (fun a => !a.isEmpty && (pyStrip a == a))) := by
  refine ⟨by decide, by decide, fun s => rfl, ?_, ?_⟩
  · intro s
    by_cases h : s.isEmpty
    · simp [parse_authors, h]
    · simp only [parse_authors, h, if_neg, Bool.false_eq_true, not_false_iff]
      exact (dedupCI_nodup _ []).1
  · intro s
    rw [List.all_eq_true]
    intro a ha
    by_cases h : s.isEmpty
    · simp [parse_authors, h] at ha
    · simp only [parse_authors, h, if_neg, Bool.false_eq_true, not_false_iff] at ha
      have hmem := mem_dedupCI a _ _ ha
      have h1 : a ∈ (splitSeparators (stripLeadingBy (pyStrip s))).map pyStrip
          ∧ (!a.isEmpty) = true := List.mem_filter.1 hmem
      rcases List.mem_map.1 h1.1 with ⟨b, _, hb⟩
      have : pyStrip a = a := by rw [← hb]; exact pyStrip_idem b
      simp [h1.2, this]

/-- C10: a whitespace-only author name yields the LIKE pattern "%%", which
matches every contributor name, so the title+author fallback can resolve a
record with such an author to a catalog entity whose sole contributor name
shares nothing with the record's author. -/
theorem c10_empty_author_pattern (s : String) (h : ∀ c ∈ s.data, c.isWhitespace) :
    make_author_like_pattern s = "%%"
    ∧ (∀ t : String, sqlLike "%%".data t.data = true)
    ∧ find_book_id_by_author_title c10db "Some Title" [s] "L1" = some "b1" := by
  have hw : pyWords s = [] := pyWordsAux_nil s.data h
  have hpat : make_author_like_pattern s = "%%" := by
    simp [make_author_like_pattern, hw, joinSep, pyLower, replaceSpacePercent]
  refine ⟨hpat, fun t => sqlLike_two_percent t.data, ?_⟩
  show (if (normalize_title "Some Title").isEmpty then none
    else authorLoop c10db (normalize_title "Some Title") "L1" [s]) = some "b1"
  rw [show normalize_title "Some Title" = "some title" from rfl]
  simp only [authorLoop, hpat]
  decide

/-- Witness for the C10 theorem at the concrete author name " ". -/
theorem c10_witness :
    make_author_like_pattern " " = "%%"
    ∧ (∀ t : String, sqlLike "%%".data t.data = true)
    ∧ find_book_id_by_author_title c10db "Some Title" [" "] "L1" = some "b1" :=
  c10_empty_author_pattern " " (by decide)

theorem lookupKey_map_update (k : String) (bk : Book) :
    ∀ l : List (String × Book),
      (∃ p, l.find? (fun q => q.1 == k) = some p) →
      lookupKey k (l.map (fun q => if q.1 == k then (q.1, bk) else q)) = some bk := by
  intro l
  induction l with
  | nil => intro ⟨p, hp⟩; simp at hp
  | cons q l ih =>
    intro ⟨p, hp⟩
    cases hq : (q.1 == k) with
    | true =>
      have hmap : (q :: l).map (fun q => if q.1 == k then (q.1, bk) else q)
          = (q.1, bk) :: l.map (fun q => if q.1 == k then (q.1, bk) else q) := by
        rw [List.map_cons, if_pos hq]
      rw [hmap, lookupKey,
        List.find?_cons_of_pos (p := fun (p : String × Book) => p.1 == k) _
          (show ((q.1, bk).1 == k) = true from hq)]
      rfl
    | false =>
      have hrec : ∃ p, l.find? (fun q => q.1 == k) = some p := by
        rw [List.find?_cons_of_neg _ (by simp [hq])] at hp
        exact ⟨p, hp⟩
      have hmap : (q :: l).map (fun q => if q.1 == k then (q.1, bk) else q)
          = q :: l.map (fun q => if q.1 == k then (q.1, bk) else q) := by
        rw [List.map_cons, if_neg (by simp [hq])]
      rw [hmap, lookupKey,
        List.find?_cons_of_neg (p := fun (p : String × Book) => p.1 == k) _
          (by simp [hq])]
      exact ih hrec

/-- C4: when the incoming record's key is already stored, the incoming record
replaces the stored one exactly when its rank is present and the stored rank
is absent or strictly larger; otherwise the stored record survives; the
winner is kept wholesale (all fields), so on an exact rank tie the first-seen
record survives with all its fields. -/
theorem c4_merge_replace (merged : List (String × Book)) (bk old : Book)
    (h : lookupKey (mergeKey bk) merged = some old) :
    lookupKey (mergeKey bk) (mergeStep merged bk)
      = some (if replacesCond bk.rank old.rank then bk else old)
    ∧ (replacesCond bk.rank old.rank = true ↔
        (bk.rank.isSome = true ∧ (old.rank = none ∨
          ∃ r r0 : Int, bk.rank = some r ∧ old.rank = some r0 ∧ r < r0))) := by
  constructor
  · cases hf : merged.find? (fun p => p.1 == mergeKey bk) with
    | none => rw [lookupKey, hf] at h; simp at h
    | some p =>
      have hpo : p.2 = old := by
        rw [lookupKey, hf] at h
        simpa using h
      cases hc : replacesCond bk.rank old.rank with
      | true =>
        have : mergeStep merged bk
            = merged.map (fun q => if q.1 == mergeKey bk then (q.1, bk) else q) := by
          simp only [mergeStep, hf, hpo, hc, if_pos]
        rw [this, if_pos rfl]
        exact lookupKey_map_update _ _ _ ⟨p, hf⟩
      | false =>
        have : mergeStep merged bk = merged := by
          simp only [mergeStep, hf, hpo, hc]
          simp
        rw [this, if_neg (by simp [hc]), h]
  · cases hb : bk.rank with
    | none => simp [replacesCond]
    | some r =>
      cases ho : old.rank with
      | none => simp [replacesCond]
      | some r0 =>
        simp only [replacesCond, Option.isSome_some, true_and, decide_eq_true_eq]
        constructor
        · intro hlt
          exact Or.inr ⟨r, r0, rfl, rfl, hlt⟩
        · rintro (hno | ⟨r', r0', hr', hr0', hlt⟩)
          · exact absurd hno (by simp)
          · cases hr'
            cases hr0'
            exact hlt

/-- Witness for the C4 theorem: ranks 5 (stored) versus 2 (incoming) on the
same key; the incoming rank-2 record wins wholesale. -/
theorem c4_witness :
    lookupKey (mergeKey c4new) [("1-2", c4old)] = some c4old
    ∧ (lookupKey (mergeKey c4new) (mergeStep [("1-2", c4old)] c4new)
        = some (if replacesCond c4new.rank c4old.rank then c4new else c4old)
      ∧ (replacesCond c4new.rank c4old.rank = true ↔
          (c4new.rank.isSome = true ∧ (c4old.rank = none ∨
            ∃ r r0 : Int, c4new.rank = some r ∧ c4old.rank = some r0 ∧ r < r0)))) :=
  ⟨by decide, c4_merge_replace [("1-2", c4old)] c4new c4old (by decide)⟩

/-- C2: if any error is raised during the transactional phase (enrich/filter
or sync), the catalog state observable after the run equals the state at
BEGIN — every write of the run is rolled back and no partial group update is
visible.  Rollback is modelled as the store reverting to the pre-transaction
state, which is the sqlite semantics of the explicit
BEGIN/COMMIT/ROLLBACK in `main`. -/
theorem c2_rollback (resolveF : Book → Except String (Option String))
    (groups : List (String × List Book)) (lib_id : String)
    (uuidSup : Nat → Nat → String) (now : String) (db : AbsDb) (e : String)
    (h : (main_model resolveF groups lib_id uuidSup now db).2 = some e) :
    (main_model resolveF groups lib_id uuidSup now db).1 = db := by
  unfold main_model run_transaction at h ⊢
  cases hp : txn_phase resolveF groups lib_id uuidSup now db with
  | ok db' => rw [hp] at h; simp at h
  | error e' => rfl

/-- Witness for the C2 theorem: a resolver that raises makes the whole run
fail and leaves the (here pre-populated) catalog untouched. -/
theorem c2_witness :
    (main_model (fun _ => .error "disk I/O error")
      [("G", [mkBook "T" [] "" "" none none])] "L" (fun _ _ => "u") "t" c3db).2
      = some "disk I/O error"
    ∧ (main_model (fun _ => .error "disk I/O error")
        [("G", [mkBook "T" [] "" "" none none])] "L" (fun _ _ => "u") "t" c3db).1
      = c3db :=
  ⟨rfl, c2_rollback (fun _ => .error "disk I/O error")
    [("G", [mkBook "T" [] "" "" none none])] "L" (fun _ _ => "u") "t" c3db
    "disk I/O error" rfl⟩

theorem isEmpty_false_of_ne (s : String) (h : s ≠ "") : s.isEmpty = false := by
  cases he : s.isEmpty
  · rfl
  · exact absurd ((String.isEmpty_iff s).1 he) h

theorem find_isbn_id_mem (db : AbsDb) (isbn lib i : String)
    (h : find_book_id_by_isbn db isbn lib = some i) :
    ∃ b ∈ db.books, b.id = i := by
  unfold find_book_id_by_isbn at h
  by_cases h1 : isbn.isEmpty
  · simp [h1] at h
  · by_cases h2 : (normalize_isbn isbn).isEmpty
    · simp [h1, h2] at h
    · simp only [h1, h2, Bool.false_eq_true, if_neg, not_false_iff] at h
      cases hf : db.books.find? (fun b =>
          stripHyphens (pyLower (b.isbn.getD "")) == normalize_isbn isbn &&
          db.libraryItems.any (fun li => li.mediaId == b.id && li.libraryId == lib)) with
      | none => rw [hf] at h; simp at h
      | some b =>
        rw [hf] at h
        exact ⟨b, List.mem_of_find?_eq_some hf, by simpa using h⟩

theorem authorLoop_id_mem (db : AbsDb) (tnorm lib i : String) :
    ∀ as : List String, authorLoop db tnorm lib as = some i →
      ∃ b ∈ db.books, b.id = i := by
  intro as
  induction as with
  | nil => intro h; simp [authorLoop] at h
  | cons a rest ih =>
    intro h
    unfold authorLoop at h
    cases hh : authorTitleHit db tnorm (make_author_like_pattern a) lib with
    | none => rw [hh] at h; exact ih h
    | some j =>
      rw [hh] at h
      unfold authorTitleHit at hh
      cases hf : db.books.find? (fun b =>
          pyLower b.title == tnorm &&
          db.bookAuthors.any (fun ba =>
            ba.bookId == b.id &&
            db.authors.any (fun au => au.id == ba.authorId &&
              sqlLike (make_author_like_pattern a).data (pyLower au.name).data)) &&
          db.libraryItems.any (fun li => li.mediaId == b.id && li.libraryId == lib)) with
      | none => rw [hf] at hh; simp at hh
      | some b =>
        rw [hf] at hh
        refine ⟨b, List.mem_of_find?_eq_some hf, ?_⟩
        have hbj : b.id = j := by simpa using hh
        have hji : j = i := by simpa using h
        rw [hbj, hji]

theorem find_at_id_mem (db : AbsDb) (title lib i : String) (authors : List String)
    (h : find_book_id_by_author_title db title authors lib = some i) :
    ∃ b ∈ db.books, b.id = i := by
  unfold find_book_id_by_author_title at h
  by_cases h1 : (normalize_title title).isEmpty
  · simp [h1] at h
  · simp only [h1, Bool.false_eq_true, if_neg, not_false_iff] at h
    exact authorLoop_id_mem db _ lib i authors h

/-- C5: when every catalog identifier is non-empty, `resolve_abs_id_for_book`
returns the ISBN strategy's result when that strategy succeeds, otherwise the
title+author strategy's result (which tries the record's authors in list
order and stops at the first hit), otherwise `none`; a double miss yields
`none`, a value, never an error. -/
theorem c5_resolve (db : AbsDb) (bk : Book) (lib : String)
    (h : ∀ b ∈ db.books, b.id ≠ "") :
    (resolve_abs_id_for_book db bk lib
      = match find_book_id_by_isbn db bk.isbn lib with
        | some i => some i
        | none => find_book_id_by_author_title db bk.title bk.authors lib)
    ∧ (find_book_id_by_isbn db bk.isbn lib = none →
        find_book_id_by_author_title db bk.title bk.authors lib = none →
        resolve_abs_id_for_book db bk lib = none) := by
  have hmain : resolve_abs_id_for_book db bk lib
      = match find_book_id_by_isbn db bk.isbn lib with
        | some i => some i
        | none => find_book_id_by_author_title db bk.title bk.authors lib := by
    unfold resolve_abs_id_for_book
    cases hi : find_book_id_by_isbn db bk.isbn lib with
    | some i =>
      obtain ⟨b, hb, hbi⟩ := find_isbn_id_mem db bk.isbn lib i hi
      have hti : truthy (some i) = true := by
        have hne := h b hb
        rw [hbi] at hne
        simp [truthy, isEmpty_false_of_ne i hne]
      simp [hti]
    | none =>
      cases ha : find_book_id_by_author_title db bk.title bk.authors lib with
      | some j =>
        obtain ⟨b, hb, hbj⟩ := find_at_id_mem db bk.title lib j bk.authors ha
        have htj : truthy (some j) = true := by
          have hne := h b hb
          rw [hbj] at hne
          simp [truthy, isEmpty_false_of_ne j hne]
        simp [truthy, htj, isEmpty_false_of_ne j (hbj ▸ h b hb)]
      | none => simp [truthy]
  refine ⟨hmain, ?_⟩
  intro h1 h2
  rw [hmain, h1, h2]

/-- Witness for the C5 theorem: the record's ISBN "999" misses, the first
author hits on exact title plus author pattern, so resolution returns that
hit. -/
theorem c5_witness :
    (∀ b ∈ c5db.books, b.id ≠ "")
    ∧ ((resolve_abs_id_for_book c5db c5book "L"
        = match find_book_id_by_isbn c5db c5book.isbn "L" with
          | some i => some i
          | none => find_book_id_by_author_title c5db c5book.title c5book.authors "L")
      ∧ (find_book_id_by_isbn c5db c5book.isbn "L" = none →
          find_book_id_by_author_title c5db c5book.title c5book.authors "L" = none →
          resolve_abs_id_for_book c5db c5book "L" = none)) :=
  ⟨by decide, c5_resolve c5db c5book "L" (by decide)⟩

theorem uniqueIds_eq_dedup :
    ∀ (books : List Book) (seen : List String),
      (∀ b ∈ books, b.abs_book_id ≠ some "") →
      uniqueIds books seen = dedupFirstAux (books.filterMap (·.abs_book_id)) seen := by
  intro books
  induction books with
  | nil => intro seen _; rfl
  | cons b bs ih =>
    intro seen h
    have hrest : ∀ x ∈ bs, x.abs_book_id ≠ some "" :=
      fun x hx => h x (List.mem_cons_of_mem _ hx)
    cases hid : b.abs_book_id with
    | none =>
      simp only [uniqueIds, hid, List.filterMap_cons]
      exact ih seen hrest
    | some id =>
      have hne : id ≠ "" := by
        intro hc
        exact h b (by simp) (by rw [hid, hc])
      have hie : id.isEmpty = false := isEmpty_false_of_ne id hne
      by_cases hmem : id ∈ seen
      · simp only [uniqueIds, hid, hie, Bool.false_eq_true, if_neg, if_pos hmem,
          not_false_iff, List.filterMap_cons, dedupFirstAux]
        exact ih seen hrest
      · simp only [uniqueIds, hid, hie, Bool.false_eq_true, if_neg, if_neg hmem,
          not_false_iff, List.filterMap_cons, dedupFirstAux]
        exact congrArg (fun t => id :: t) (ih (id :: seen) hrest)

theorem dedupFirstAux_props :
    ∀ (l seen : List String),
      (dedupFirstAux l seen).Nodup ∧ ∀ x ∈ dedupFirstAux l seen, x ∉ seen := by
  intro l
  induction l with
  | nil => intro seen; simp [dedupFirstAux]
  | cons x xs ih =>
    intro seen
    by_cases hx : x ∈ seen
    · simpa [dedupFirstAux, hx] using ih seen
    · have ihx := ih (x :: seen)
      have hstep : dedupFirstAux (x :: xs) seen = x :: dedupFirstAux xs (x :: seen) := by
        simp [dedupFirstAux, hx]
      rw [hstep]
      constructor
      · rw [List.nodup_cons]
        exact ⟨fun hmem => (ihx.2 x hmem) (by simp), ihx.1⟩
      · intro y hy
        rcases List.mem_cons.1 hy with rfl | hy'
        · exact hx
        · exact fun hys => (ihx.2 y hy') (List.mem_cons_of_mem _ hys)

theorem filter_neg_filter_nil (l : List CollectionBookRow) (cid : String) :
    ((l.filter (fun r => !(r.collectionId == cid))).filter
      (fun r => r.collectionId == cid)) = [] := by
  rw [List.filter_filter]
  rw [List.filter_eq_nil_iff]
  intro a _
  simp [Bool.and_not_self]

theorem membership_replace (db : AbsDb) (cid : String) (books : List Book)
    (u : Nat → String) (now : String)
    (h : ∀ b ∈ books, b.abs_book_id ≠ some "") :
    membership (replace_collection_books db cid books u now) cid
      = (dedupFirstAux (books.filterMap (·.abs_book_id)) []).enum.map
          (fun p => (p.1 + 1, p.2)) := by
  have hu : uniqueIds books [] = dedupFirstAux (books.filterMap (·.abs_book_id)) [] :=
    uniqueIds_eq_dedup books [] h
  by_cases he : (uniqueIds books []).isEmpty
  · have hnil : uniqueIds books [] = [] := List.isEmpty_iff.1 he
    have hrw : replace_collection_books db cid books u now
        = { db with collectionBooks := (db.collectionBooks.filter
            (fun r => !(r.collectionId == cid))) } := by
      simp only [replace_collection_books, he, if_pos]
    rw [hrw]
    unfold membership
    rw [filter_neg_filter_nil, ← hu, hnil]
    rfl
  · have hrw : replace_collection_books db cid books u now
        = { db with collectionBooks :=
            (db.collectionBooks.filter (fun r => !(r.collectionId == cid)) ++
              (uniqueIds books []).enum.map (fun p =>
                ({ id := u p.1, ord := p.1 + 1, createdAt := now,
                   bookId := p.2, collectionId := cid } : CollectionBookRow))) } := by
      simp only [replace_collection_books, he, Bool.false_eq_true, if_neg,
        not_false_iff]
    rw [hrw]
    unfold membership
    rw [List.filter_append, filter_neg_filter_nil, List.nil_append]
    have hpay : ((uniqueIds books []).enum.map (fun p =>
        ({ id := u p.1, ord := p.1 + 1, createdAt := now,
           bookId := p.2, collectionId := cid } : CollectionBookRow))).filter
          (fun r => r.collectionId == cid)
        = (uniqueIds books []).enum.map (fun p =>
            ({ id := u p.1, ord := p.1 + 1, createdAt := now,
               bookId := p.2, collectionId := cid } : CollectionBookRow)) := by
      rw [List.filter_eq_self]
      intro r hr
      rcases List.mem_map.1 hr with ⟨p, _, hp⟩
      rw [← hp]
      exact beq_self_eq_true cid
    rw [hpay, List.map_map, hu]
    rfl

/-- C3: after `replace_collection_books`, the group's membership is exactly
the resolved identifiers of the input, deduplicated first-occurrence-wins in
input order, numbered 1..N gap-free, with no duplicate identifier, whatever
rows existed before; an empty deduplicated input leaves zero members, and
running the operation twice with the same input leaves the same membership as
running it once. -/
theorem c3_replace_membership (db : AbsDb) (cid : String) (books : List Book)
    (u1 u2 : Nat → String) (n1 n2 : String)
    (h : ∀ b ∈ books, b.abs_book_id ≠ some "") :
    membership (replace_collection_books db cid books u1 n1) cid
      = (dedupFirstAux (books.filterMap (·.abs_book_id)) []).enum.map
          (fun p => (p.1 + 1, p.2))
    ∧ ((membership (replace_collection_books db cid books u1 n1) cid).map
        Prod.snd).Nodup
    ∧ (books.filterMap (·.abs_book_id) = [] →
        membership (replace_collection_books db cid books u1 n1) cid = [])
    ∧ membership (replace_collection_books
        (replace_collection_books db cid books u1 n1) cid books u2 n2) cid
      = membership (replace_collection_books db cid books u1 n1) cid := by
  have h1 := membership_replace db cid books u1 n1 h
  have h2 := membership_replace (replace_collection_books db cid books u1 n1)
    cid books u2 n2 h
  refine ⟨h1, ?_, ?_, ?_⟩
  · rw [h1, List.map_map]
    have hf : (Prod.snd ∘ fun (p : Nat × String) => (p.1 + 1, p.2))
        = (Prod.snd : Nat × String → String) := rfl
    rw [hf, List.enum_map_snd]
    exact (dedupFirstAux_props _ []).1
  · intro hnil
    rw [h1, hnil]
    rfl
  · rw [h1, h2]

/-- Witness for the C3 theorem on a concrete catalog with pre-existing rows
for this and another group, and an input with a duplicate resolved id and an
unresolved record. -/
theorem c3_witness :
    (∀ b ∈ c3books, b.abs_book_id ≠ some "")
    ∧ (membership (replace_collection_books c3db "G" c3books (fun _ => "u") "t1") "G"
        = (dedupFirstAux (c3books.filterMap (·.abs_book_id)) []).enum.map
            (fun p => (p.1 + 1, p.2))
      ∧ ((membership (replace_collection_books c3db "G" c3books (fun _ => "u") "t1")
          "G").map Prod.snd).Nodup
      ∧ (c3books.filterMap (·.abs_book_id) = [] →
          membership (replace_collection_books c3db "G" c3books (fun _ => "u") "t1")
            "G" = [])
      ∧ membership (replace_collection_books
          (replace_collection_books c3db "G" c3books (fun _ => "u") "t1") "G"
          c3books (fun _ => "v") "t2") "G"
        = membership (replace_collection_books c3db "G" c3books (fun _ => "u") "t1")
            "G") :=
  ⟨by decide, c3_replace_membership c3db "G" c3books (fun _ => "u") (fun _ => "v")
    "t1" "t2" (by decide)⟩

theorem charListLe_trans :
    ∀ (a b c : List Char), charListLe a b = true → charListLe b c = true →
      charListLe a c = true := by
  intro a
  induction a with
  | nil => intro b c _ _; simp [charListLe]
  | cons x xs ih =>
    intro b c h1 h2
    cases b with
    | nil => simp [charListLe] at h1
    | cons y ys =>
      cases c with
      | nil => simp [charListLe] at h2
      | cons z zs =>
        simp only [charListLe] at h1 h2 ⊢
        by_cases exy : x.toNat = y.toNat <;> by_cases eyz : y.toNat = z.toNat
        · rw [if_pos exy] at h1
          rw [if_pos eyz] at h2
          rw [if_pos (by omega)]
          exact ih ys zs h1 h2
        · rw [if_pos exy] at h1
          rw [if_neg eyz] at h2
          simp only [decide_eq_true_eq] at h2
          rw [if_neg (by omega)]
          simp only [decide_eq_true_eq]
          omega
        · rw [if_neg exy] at h1
          rw [if_pos eyz] at h2
          simp only [decide_eq_true_eq] at h1
          rw [if_neg (by omega)]
          simp only [decide_eq_true_eq]
          omega
        · rw [if_neg exy] at h1
          rw [if_neg eyz] at h2
          simp only [decide_eq_true_eq] at h1 h2
          rw [if_neg (by omega)]
          simp only [decide_eq_true_eq]
          omega

theorem charListLe_total :
    ∀ (a b : List Char), (charListLe a b || charListLe b a) = true := by
  intro a
  induction a with
  | nil => intro b; simp [charListLe]
  | cons x xs ih =>
    intro b
    cases b with
    | nil => simp [charListLe]
    | cons y ys =>
      simp only [charListLe]
      by_cases e : x.toNat = y.toNat
      · rw [if_pos e, if_pos (by omega)]
        exact ih ys
      · rw [if_neg e, if_neg (by omega)]
        simp only [decide_eq_true_eq, Bool.or_eq_true]
        omega

theorem lexLe_trans (p q r : Nat × Int × String)
    (h1 : lexLe p q = true) (h2 : lexLe q r = true) : lexLe p r = true := by
  unfold lexLe at h1 h2 ⊢
  by_cases e1 : p.1 = q.1 <;> by_cases e2 : q.1 = r.1
  · rw [if_pos e1] at h1
    rw [if_pos e2] at h2
    rw [if_pos (by omega)]
    by_cases f1 : p.2.1 = q.2.1 <;> by_cases f2 : q.2.1 = r.2.1
    · rw [if_pos f1] at h1
      rw [if_pos f2] at h2
      rw [if_pos (by omega)]
      exact charListLe_trans _ _ _ h1 h2
    · rw [if_pos f1] at h1
      rw [if_neg f2] at h2
      simp only [decide_eq_true_eq] at h2
      rw [if_neg (by omega)]
      simp only [decide_eq_true_eq]
      omega
    · rw [if_neg f1] at h1
      rw [if_pos f2] at h2
      simp only [decide_eq_true_eq] at h1
      rw [if_neg (by omega)]
      simp only [decide_eq_true_eq]
      omega
    · rw [if_neg f1] at h1
      rw [if_neg f2] at h2
      simp only [decide_eq_true_eq] at h1 h2
      rw [if_neg (by omega)]
      simp only [decide_eq_true_eq]
      omega
  · rw [if_pos e1] at h1
    rw [if_neg e2] at h2
    simp only [decide_eq_true_eq] at h2
    rw [if_neg (by omega)]
    simp only [decide_eq_true_eq]
    omega
  · rw [if_neg e1] at h1
    rw [if_pos e2] at h2
    simp only [decide_eq_true_eq] at h1
    rw [if_neg (by omega)]
    simp only [decide_eq_true_eq]
    omega
  · rw [if_neg e1] at h1
    rw [if_neg e2] at h2
    simp only [decide_eq_true_eq] at h1 h2
    rw [if_neg (by omega)]
    simp only [decide_eq_true_eq]
    omega

theorem lexLe_total (p q : Nat × Int × String) :
    (lexLe p q || lexLe q p) = true := by
  unfold lexLe
  by_cases e : p.1 = q.1
  · by_cases f : p.2.1 = q.2.1
    · rw [if_pos e, if_pos f, if_pos e.symm, if_pos f.symm]
      exact charListLe_total _ _
    · rw [if_pos e, if_neg f, if_pos e.symm, if_neg (fun hf => f hf.symm)]
      simp only [decide_eq_true_eq, Bool.or_eq_true]
      omega
  · rw [if_neg e, if_neg (fun he => e he.symm)]
    simp only [decide_eq_true_eq, Bool.or_eq_true]
    omega

theorem keyLe_trans (a b c : Book) (h1 : keyLe a b = true) (h2 : keyLe b c = true) :
    keyLe a c = true :=
  lexLe_trans _ _ _ h1 h2

theorem keyLe_total (a b : Book) : (keyLe a b || keyLe b a) = true :=
  lexLe_total _ _

theorem keyLe_consequences (a b : Book) (h : keyLe a b = true) :
    (a.rank = none → b.rank = none)
    ∧ (∀ ra rb : Int, a.rank = some ra → b.rank = some rb → ra ≤ rb)
    ∧ (a.rank = b.rank → strLe (pyLower a.title) (pyLower b.title) = true) := by
  unfold keyLe lexLe sortKey at h
  cases ha : a.rank with
  | none =>
    cases hb : b.rank with
    | none =>
      rw [ha, hb] at h
      rw [if_pos (show boolNat (none : Option Int).isNone
            = boolNat (none : Option Int).isNone from rfl),
        if_pos (show rankSentinel (none : Option Int)
            = rankSentinel (none : Option Int) from rfl)] at h
      exact ⟨fun _ => rfl, fun r1 r2 h1 => absurd h1 (by simp), fun _ => h⟩
    | some rb =>
      rw [ha, hb] at h
      rw [if_neg (show ¬(boolNat (none : Option Int).isNone
            = boolNat (some rb).isNone) from by
          simp [boolNat])] at h
      simp only [decide_eq_true_eq] at h
      exact absurd (show boolNat (none : Option Int).isNone
        < boolNat (some rb).isNone from h) (by simp [boolNat])
  | some ra =>
    cases hb : b.rank with
    | none =>
      exact ⟨fun hc => absurd hc (by simp),
        fun r1 r2 _ hc => absurd hc (by simp),
        fun hc => absurd hc (by simp)⟩
    | some rb =>
      rw [ha, hb] at h
      rw [if_pos (show boolNat (some ra).isNone
          = boolNat (some rb).isNone from rfl)] at h
      refine ⟨fun hc => absurd hc (by simp), ?_, ?_⟩
      · intro r1 r2 h1 h2
        have hra : ra = r1 := by injection h1
        have hrb : rb = r2 := by injection h2
        by_cases e : ra = rb
        · omega
        · rw [if_neg (show ¬(rankSentinel (some ra)
              = rankSentinel (some rb)) from e)] at h
          simp only [decide_eq_true_eq] at h
          have hlt : ra < rb := h
          omega
      · intro hc
        have e : ra = rb := by injection hc
        rw [if_pos (show rankSentinel (some ra)
            = rankSentinel (some rb) from e)] at h
        exact h

/-- C8: the final ordered sequence a merged group produces is sorted
ascending by the key (rank absent flag, rank or the 1000000 sentinel,
lowercased title): pairwise, a rank-absent entry is never followed by a
rank-present one, present ranks are ascending, and ties on rank (equal or
both absent) are in ascending code-point order of lowercased title. -/
theorem c8_sort_order (bookLists : List (List Book)) :
    List.Pairwise (fun a b =>
      keyLe a b = true
      ∧ (a.rank = none → b.rank = none)
      ∧ (∀ ra rb : Int, a.rank = some ra → b.rank = some rb → ra ≤ rb)
      ∧ (a.rank = b.rank → strLe (pyLower a.title) (pyLower b.title) = true))
      (build_group bookLists) := by
  have hs := @List.sorted_mergeSort Book keyLe
    (fun a b c => keyLe_trans a b c) (fun a b => keyLe_total a b)
    ((bookLists.flatten.foldl mergeStep []).map Prod.snd)
  have : build_group bookLists
      = ((bookLists.flatten.foldl mergeStep []).map Prod.snd).mergeSort keyLe := rfl
  rw [this]
  exact hs.imp (fun h => ⟨h, keyLe_consequences _ _ h⟩)

end NytAbs
